import Mathlib

/-!
Verification development for `qiime/estimate_observation_richness.py`
(observation-richness estimation: rarefaction / extrapolation curves).

The Python module is embedded shallowly:

* a BIOM table is modelled through the read-only query contract the engine
  uses: a list of samples, each sample a list of per-category non-negative
  integer counts (`List (List ℕ)`);
* real arithmetic (Python true division on ints / numpy scalars) is modelled
  exactly over `ℚ`;
* fallible code returns `Except EstErr`; a Python exception is an `EstErr`
  value.  Divisions whose denominator can be zero at run time are modelled
  with an explicit zero test producing `EstErr.zeroDivision`, matching the
  exception Python raises there (numpy float scalars would instead yield
  inf/nan with a warning; exact rationals cannot represent that, so the
  division-by-zero event itself is what is modelled);
* the module runs under Python 2 (`from __future__ import division`,
  `bisect.insort` on a `range(...)` list), so `None` compares below every
  integer; `pyLt` models that total order on `Option ℤ`.
-/

/-- Error kinds raised by the module.  `emptyTable`, `emptySample` are the
module's own exception classes; `invalidParameter` is the `ValueError` raised
by `_get_points_to_estimate`; `invalidFrequency` the `ValueError` raised by
`Chao1FullRichnessEstimator` on negative `f1`/`f2`; `zeroDivision`,
`indexError`, `typeError` model Python's `ZeroDivisionError`, `IndexError`
and `TypeError`. -/
inductive EstErr : Type
  | emptyTable
  | emptySample
  | invalidParameter
  | invalidFrequency
  | zeroDivision
  | indexError
  | typeError
deriving DecidableEq, Repr

instance {ε α : Type} [DecidableEq ε] [DecidableEq α] : DecidableEq (Except ε α) := fun x y =>
  match x, y with
  | .error a, .error b =>
      if h : a = b then .isTrue (by rw [h]) else .isFalse (fun hc => by cases hc; exact h rfl)
  | .error _, .ok _ => .isFalse (fun hc => by cases hc)
  | .ok _, .error _ => .isFalse (fun hc => by cases hc)
  | .ok a, .ok b =>
      if h : a = b then .isTrue (by rw [h]) else .isFalse (fun hc => by cases hc; exact h rfl)

/-- Python 2 `<` on an `int`-or-`None` value: `None` sorts below every
integer (CPython 2 compares `NoneType` before `int` by type name). -/
def pyLt : Option ℤ → Option ℤ → Bool
  | none, none => false
  | none, some _ => true
  | some _, none => false
  | some x, some y => decide (x < y)

/-- Python `range(a, b + 1, c)` for step `c ≥ 1` (the only way the module
calls it): the increasing list `a, a+c, ...` of values `≤ b`. -/
def rangeList (a b c : ℤ) : List ℤ :=
  (List.range (((b + 1 - a).toNat + (c.toNat - 1)) / c.toNat)).map (fun i => a + c * i)

/-- The `bisect.insort` step: insert `x` into a sorted list, after any equal
elements (`insort_right`). -/
def insortList (xs : List ℤ) (x : ℤ) : List ℤ :=
  match xs with
  | [] => [x]
  | y :: ys => if x < y then x :: y :: ys else y :: insortList ys x

/-- Total individual count of one sample (`biom_table.sum(axis='sample')`
restricted to one column). -/
def totalIndividualCount (samp_data : List ℕ) : ℕ :=
  samp_data.sum

/-- `ObservationRichnessEstimator.getTotalIndividualCounts`. -/
def getTotalIndividualCounts (table : List (List ℕ)) : List ℕ :=
  table.map totalIndividualCount

/-- Observed category count of one sample: `(e > 0).sum(0)` over the
sample's abundance vector. -/
def observationCount (samp_data : List ℕ) : ℕ :=
  (samp_data.filter (fun e => decide (0 < e))).length

/-- `ObservationRichnessEstimator.getObservationCounts`. -/
def getObservationCounts (table : List (List ℕ)) : List ℕ :=
  table.map observationCount

/-- Abundance frequency counts of one sample: entry `i` (0-based) is
`(samp_data == i + 1).sum(0)`, i.e. the number of categories observed exactly
`i + 1` times; the loop runs `i + 1` from `1` to `num_individuals`. -/
def abundanceFrequencyCounts (samp_data : List ℕ) : List ℕ :=
  (List.range samp_data.sum).map (fun i => samp_data.count (i + 1))

/-- `ObservationRichnessEstimator.getAbundanceFrequencyCounts`. -/
def getAbundanceFrequencyCounts (table : List (List ℕ)) : List (List ℕ) :=
  table.map abundanceFrequencyCounts

/-- Construction checks of `ObservationRichnessEstimator.__init__`.
`biom_table.isEmpty()` is an external-collaborator call; modelled from the
spec contract: the table is empty iff it has zero samples.  Then every
sample's total individual count must be at least 1. -/
def estimatorInit (table : List (List ℕ)) : Except EstErr Unit :=
  if table.isEmpty then .error .emptyTable
  else if (getTotalIndividualCounts table).any (fun c => decide (c < 1)) then
    .error .emptySample
  else .ok ()

/-- `Chao1FullRichnessEstimator.estimateUnobservedObservationCount`:
`f1 = fk[0]`, `f2 = fk[1]` (IndexError if the list is shorter), ValueError on
negative values, then `f1^2 / (2 f2)` if `f2 > 0`, else the bias-corrected
`f1 (f1 - 1) / (2 (f2 + 1))`. -/
def estimateUnobservedObservationCount (abundance_frequency_counts : List ℚ) :
    Except EstErr ℚ :=
  match abundance_frequency_counts.get? 0, abundance_frequency_counts.get? 1 with
  | some f1, some f2 =>
    if f1 < 0 ∨ f2 < 0 then .error .invalidFrequency
    else if 0 < f2 then .ok (f1 ^ 2 / (2 * f2))
    else .ok ((f1 * (f1 - 1)) / (2 * (f2 + 1)))
  | _, _ => .error .indexError

/-- `AbstractFullRichnessEstimator.estimateFullRichness`:
`S_est = S_obs + f_hat_0`. -/
def estimateFullRichness (abundance_frequency_counts : List ℚ)
    (observation_count : ℚ) : Except EstErr ℚ :=
  match estimateUnobservedObservationCount abundance_frequency_counts with
  | .error e => .error e
  | .ok u => .ok (observation_count + u)

/-- `MultinomialPointEstimator._calculate_alpha_km`:
`(n-k)! (n-m)! / (n! (n-k-m)!)` when `k ≤ n - m`, else `0`.  In every use
`1 ≤ k ≤ n`, and under the guard `k + m ≤ n`, so all four factorial
arguments are non-negative and the `Int.toNat` coercions are exact. -/
def calculate_alpha_km (n k : ℕ) (m : ℤ) : ℚ :=
  if (k : ℤ) ≤ (n : ℤ) - m then
    ((((n : ℤ) - k).toNat.factorial : ℚ) * (((n : ℤ) - m).toNat.factorial : ℚ)) /
      ((n.factorial : ℚ) * (((n : ℤ) - k - m).toNat.factorial : ℚ))
  else 0

/-- `MultinomialPointEstimator._calculate_covariance`. -/
def calculate_covariance (f_i f_j s_obs f_hat : ℚ) (same_var : Bool) : ℚ :=
  if same_var then f_i * (1 - f_i / (s_obs + f_hat))
  else -(f_i * f_j) / (s_obs + f_hat)

/-- `MultinomialPointEstimator.estimateExpectedObservationCount`.
Interpolation (`m ≤ n`): `s_obs - Σ_{k=1}^{n} α(n,k,m) fk[k-1]`.
Extrapolation (`m > n`): `s_obs + f̂ (1 - (1 - f1/(n f̂))^(m-n))`; the
division `f1 / (n f̂)` is performed unguarded, so a zero denominator is a
division-by-zero event.  The accesses `fk[k-1]` (`k = 1..n`) and `fk[0]`
are modelled with `getD`; for engine-derived `fk` (length `n`, and length
`≥ 2` whenever the unobserved-count estimate has succeeded) every such
access is in range, so the default is never taken. -/
def estimateExpectedObservationCount (m : ℤ) (n : ℕ) (fk : List ℚ) (s_obs : ℚ) :
    Except EstErr ℚ :=
  if m ≤ (n : ℤ) then
    .ok (s_obs - ∑ k in Finset.range n, calculate_alpha_km n (k + 1) m * fk.getD k 0)
  else
    match estimateUnobservedObservationCount fk with
    | .error e => .error e
    | .ok f_hat =>
      if (n : ℚ) * f_hat = 0 then .error .zeroDivision
      else
        .ok (s_obs + f_hat * (1 - (1 - fk.getD 0 0 / ((n : ℚ) * f_hat)) ^ (m - n).toNat))

/-- `MultinomialPointEstimator.estimateExpectedObservationCountStdErr`, up to
the final real square root.  Interpolation (`m ≤ n`): the returned rational is
the radicand `Σ (1-α)² fk[k-1] - s_m²/s_est` to which the source applies
`numpy.sqrt` (which raises nothing; a negative radicand yields nan).
Extrapolation (`m > n`): the source returns the raw covariance accumulation
with no square root at all.  The division by `s_est`, and the divisions by
`s_obs + f̂` inside the covariance terms (executed only when the `n × n` loop
body runs, i.e. when `1 ≤ n`), are zero-checked as division-by-zero events. -/
def estimateExpectedObservationCountStdErr (m : ℤ) (n : ℕ) (fk : List ℚ)
    (s_obs s_m : ℚ) : Except EstErr ℚ :=
  if m ≤ (n : ℤ) then
    match estimateFullRichness fk s_obs with
    | .error e => .error e
    | .ok s_est =>
      if s_est = 0 then .error .zeroDivision
      else
        .ok ((∑ k in Finset.range n, (1 - calculate_alpha_km n (k + 1) m) ^ 2 * fk.getD k 0)
              - s_m ^ 2 / s_est)
  else
    match estimateUnobservedObservationCount fk with
    | .error e => .error e
    | .ok f_hat =>
      if 1 ≤ n ∧ s_obs + f_hat = 0 then .error .zeroDivision
      else
        .ok (∑ i in Finset.range n, ∑ j in Finset.range n,
              calculate_covariance (fk.getD i 0) (fk.getD j 0) s_obs f_hat (i == j))

/-- `ObservationRichnessEstimator._get_points_to_estimate`, with Python 2
comparison semantics on possibly-`None` arguments.  `start < 1 or
step_size < 1` raises `ValueError`; then `start > stop` raises `ValueError`;
then `points = range(start, stop + 1, step_size)` and the reference count is
insorted if absent.  The `.typeError` arm is unreachable: any `none`
argument is caught by the comparisons (`None` is below every int). -/
def getPointsToEstimate (start stop step_size : Option ℤ)
    (reference_individual_count : ℤ) : Except EstErr (List ℤ) :=
  if pyLt start (some 1) || pyLt step_size (some 1) then .error .invalidParameter
  else if pyLt stop start then .error .invalidParameter
  else
    match start, stop, step_size with
    | some a, some b, some c =>
      let points := rangeList a b c
      .ok (if reference_individual_count ∈ points then points
           else insortList points reference_individual_count)
    | _, _, _ => .error .typeError

/-- Body of the per-sample size loop of `ObservationRichnessEstimator.__call__`:
for each size, the expected observation count then its standard error, the
pairs accumulated in order. -/
def sizeResults (n : ℕ) (fk : List ℚ) (num_obs : ℚ) :
    List ℤ → Except EstErr (List (ℤ × ℚ × ℚ))
  | [] => .ok []
  | size :: rest =>
    match estimateExpectedObservationCount size n fk num_obs with
    | .error e => .error e
    | .ok exp_obs_count =>
      match estimateExpectedObservationCountStdErr size n fk num_obs exp_obs_count with
      | .error e => .error e
      | .ok exp_obs_count_se =>
        match sizeResults n fk num_obs rest with
        | .error e => .error e
        | .ok tail => .ok ((size, exp_obs_count, exp_obs_count_se) :: tail)

/-- `ObservationRichnessEstimator.__call__`: per sample (in table order),
compute `n`, `s_obs` and the abundance frequency counts, build the points to
estimate, then run the size loop; the first Python exception aborts the call.
The source line `samp_data = samp_data[samp_data > 0]` is dead (its result
is unused; the source's own TODO notes it is unnecessary) and is omitted. -/
def estimatorCall (table : List (List ℕ)) (start stop step_size : Option ℤ) :
    Except EstErr (List (List (ℤ × ℚ × ℚ))) :=
  match table with
  | [] => .ok []
  | samp_data :: rest =>
    match getPointsToEstimate start stop step_size (samp_data.sum : ℤ) with
    | .error e => .error e
    | .ok sizes =>
      match sizeResults samp_data.sum
          ((abundanceFrequencyCounts samp_data).map (fun (a : ℕ) => (a : ℚ)))
          (observationCount samp_data : ℚ) sizes with
      | .error e => .error e
      | .ok size_results =>
        match estimatorCall rest start stop step_size with
        | .error e => .error e
        | .ok tail => .ok (size_results :: tail)

/-- Arguments at which `_calculate_alpha_km` evaluates `math.factorial`: the
branch `k ≤ n - m` evaluates `factorial(n - k)`, `factorial(n - m)`,
`factorial(n)` and `factorial(n - k - m)`; the other branch evaluates none. -/
def alphaFactorialCalls (n k : ℕ) (m : ℤ) : List ℤ :=
  if (k : ℤ) ≤ (n : ℤ) - m then
    [(n : ℤ) - k, (n : ℤ) - m, (n : ℤ), (n : ℤ) - k - m]
  else []

/-! Properties of the interpolation weight `α(n,k,m)`. -/

lemma calculate_alpha_km_nonneg (n k : ℕ) (m : ℤ) : 0 ≤ calculate_alpha_km n k m := by
  unfold calculate_alpha_km
  split
  · positivity
  · exact le_refl 0

lemma calculate_alpha_km_eq_choose (n k : ℕ) (m : ℤ) (hk : k ≤ n)
    (hg : (k : ℤ) ≤ (n : ℤ) - m) :
    calculate_alpha_km n k m =
      ((((n : ℤ) - m).toNat.choose k : ℚ)) / ((n.choose k : ℚ)) := by
  have hkM : k ≤ ((n : ℤ) - m).toNat := by omega
  have hnk : ((n : ℤ) - (k : ℤ)).toNat = n - k := by omega
  have hnkm : ((n : ℤ) - (k : ℤ) - m).toNat = ((n : ℤ) - m).toNat - k := by omega
  have h1 : n.choose k * k.factorial * (n - k).factorial = n.factorial :=
    Nat.choose_mul_factorial_mul_factorial hk
  have h2 : (((n : ℤ) - m).toNat.choose k) * k.factorial *
      (((n : ℤ) - m).toNat - k).factorial = ((n : ℤ) - m).toNat.factorial :=
    Nat.choose_mul_factorial_mul_factorial hkM
  unfold calculate_alpha_km
  rw [if_pos hg, hnk, hnkm]
  rw [div_eq_div_iff (by positivity)
    (by exact_mod_cast (Nat.choose_pos hk).ne' : ((n.choose k : ℚ)) ≠ 0)]
  have h1q : ((n.factorial : ℚ)) = (n.choose k : ℚ) * (k.factorial : ℚ) * ((n - k).factorial : ℚ) := by
    exact_mod_cast h1.symm
  have h2q : ((((n : ℤ) - m).toNat.factorial : ℚ)) =
      ((((n : ℤ) - m).toNat.choose k : ℚ)) * (k.factorial : ℚ) *
        (((((n : ℤ) - m).toNat - k)).factorial : ℚ) := by
    exact_mod_cast h2.symm
  rw [h1q, h2q]
  ring

lemma calculate_alpha_km_le_one (n k : ℕ) (m : ℤ) (hm : 0 ≤ m) (hk : k ≤ n) :
    calculate_alpha_km n k m ≤ 1 := by
  by_cases hg : (k : ℤ) ≤ (n : ℤ) - m
  · rw [calculate_alpha_km_eq_choose n k m hk hg]
    rw [div_le_one (by exact_mod_cast Nat.cast_pos.mpr (Nat.choose_pos hk))]
    have : ((n : ℤ) - m).toNat.choose k ≤ n.choose k :=
      Nat.choose_le_choose k (by omega)
    exact_mod_cast this
  · unfold calculate_alpha_km
    rw [if_neg hg]
    exact zero_le_one

lemma calculate_alpha_km_antitone (n k : ℕ) (m m' : ℤ) (hk : k ≤ n) (hmm : m ≤ m') :
    calculate_alpha_km n k m' ≤ calculate_alpha_km n k m := by
  by_cases hg : (k : ℤ) ≤ (n : ℤ) - m'
  · have hg0 : (k : ℤ) ≤ (n : ℤ) - m := by omega
    rw [calculate_alpha_km_eq_choose n k m' hk hg, calculate_alpha_km_eq_choose n k m hk hg0]
    have hc : ((n : ℤ) - m').toNat.choose k ≤ ((n : ℤ) - m).toNat.choose k :=
      Nat.choose_le_choose k (Int.toNat_le_toNat (by omega))
    have hpos : (0 : ℚ) < (n.choose k : ℚ) := by
      exact_mod_cast Nat.choose_pos hk
    rw [div_le_div_iff₀ hpos hpos]
    exact mul_le_mul_of_nonneg_right (by exact_mod_cast hc) (le_of_lt hpos)
  · unfold calculate_alpha_km
    rw [if_neg hg]
    exact calculate_alpha_km_nonneg n k m

lemma calculate_alpha_km_at_self (n k : ℕ) (hk : 1 ≤ k) :
    calculate_alpha_km n k (n : ℤ) = 0 := by
  unfold calculate_alpha_km
  rw [if_neg (by omega)]

/-! Properties of the point construction and of the per-sample loops. -/

lemma mem_insortList (xs : List ℤ) (x : ℤ) : x ∈ insortList xs x := by
  induction xs with
  | nil => exact List.mem_singleton.mpr rfl
  | cons y ys ih =>
    unfold insortList
    by_cases h : x < y
    · rw [if_pos h]; exact List.mem_cons_self x (y :: ys)
    · rw [if_neg h]; exact List.mem_cons_of_mem y ih

lemma getPointsToEstimate_ok_mem (start stop step_size : Option ℤ) (r : ℤ)
    (pts : List ℤ) (h : getPointsToEstimate start stop step_size r = .ok pts) :
    r ∈ pts := by
  unfold getPointsToEstimate at h
  split at h
  · exact absurd h (by simp)
  · split at h
    · exact absurd h (by simp)
    · rcases start with _ | a
      · simp at h
      · rcases stop with _ | b
        · simp at h
        · rcases step_size with _ | c
          · simp at h
          · simp only [Except.ok.injEq] at h
            subst h
            by_cases hmem : r ∈ rangeList a b c
            · rwa [if_pos hmem]
            · rw [if_neg hmem]; exact mem_insortList _ r

lemma getPointsToEstimate_invalid (a b c : ℤ) (r : ℤ)
    (h : a < 1 ∨ c < 1 ∨ a > b) :
    getPointsToEstimate (some a) (some b) (some c) r = .error .invalidParameter := by
  unfold getPointsToEstimate
  by_cases h1 : a < 1
  · rw [if_pos]
    simp [pyLt, h1]
  · by_cases h2 : c < 1
    · rw [if_pos]
      simp [pyLt, h2]
    · have h3 : b < a := by omega
      rw [if_neg (by simp [pyLt]; omega), if_pos (by simp [pyLt]; omega)]

lemma getPointsToEstimate_valid (a b c : ℤ) (r : ℤ)
    (h : ¬(a < 1 ∨ c < 1 ∨ a > b)) :
    getPointsToEstimate (some a) (some b) (some c) r =
      .ok (if r ∈ rangeList a b c then rangeList a b c
           else insortList (rangeList a b c) r) := by
  unfold getPointsToEstimate
  rw [if_neg (by simp [pyLt]; omega), if_neg (by simp [pyLt]; omega)]

lemma estimateExpectedObservationCount_at_self (n : ℕ) (fk : List ℚ) (s_obs : ℚ) :
    estimateExpectedObservationCount (n : ℤ) n fk s_obs = .ok s_obs := by
  unfold estimateExpectedObservationCount
  rw [if_pos (le_refl _)]
  have hz : (∑ k in Finset.range n, calculate_alpha_km n (k + 1) (n : ℤ) * fk.getD k 0) = 0 := by
    apply Finset.sum_eq_zero
    intro k _
    rw [calculate_alpha_km_at_self n (k + 1) (by omega), zero_mul]
  rw [hz, sub_zero]

lemma sizeResults_mem (n : ℕ) (fk : List ℚ) (s : ℚ) (pts : List ℤ)
    (res : List (ℤ × ℚ × ℚ)) (h : sizeResults n fk s pts = .ok res) :
    ∀ p ∈ pts, ∃ e se, (p, e, se) ∈ res ∧
      estimateExpectedObservationCount p n fk s = .ok e := by
  induction pts generalizing res with
  | nil => intro p hp; cases hp
  | cons q rest ih =>
    intro p hp
    simp only [sizeResults] at h
    cases he : estimateExpectedObservationCount q n fk s with
    | error e => simp only [he] at h; exact Except.noConfusion h
    | ok ev =>
      simp only [he] at h
      cases hs : estimateExpectedObservationCountStdErr q n fk s ev with
      | error e => simp only [hs] at h; exact Except.noConfusion h
      | ok sev =>
        simp only [hs] at h
        cases ht : sizeResults n fk s rest with
        | error e => simp only [ht] at h; exact Except.noConfusion h
        | ok tail =>
          simp only [ht, Except.ok.injEq] at h
          subst h
          rcases List.mem_cons.mp hp with hq | hrest
          · subst hq
            exact ⟨ev, sev, List.mem_cons_self _ _, he⟩
          · obtain ⟨e, se, hmem, hee⟩ := ih tail ht p hrest
            exact ⟨e, se, List.mem_cons_of_mem _ hmem, hee⟩

lemma sizeResults_sound (n : ℕ) (fk : List ℚ) (s : ℚ) (pts : List ℤ)
    (res : List (ℤ × ℚ × ℚ)) (h : sizeResults n fk s pts = .ok res) :
    ∀ q ∈ res, estimateExpectedObservationCount q.1 n fk s = .ok q.2.1 := by
  induction pts generalizing res with
  | nil =>
    simp only [sizeResults, Except.ok.injEq] at h
    subst h
    intro q hq; cases hq
  | cons p rest ih =>
    intro q hq
    simp only [sizeResults] at h
    cases he : estimateExpectedObservationCount p n fk s with
    | error e => simp only [he] at h; exact Except.noConfusion h
    | ok ev =>
      simp only [he] at h
      cases hs : estimateExpectedObservationCountStdErr p n fk s ev with
      | error e => simp only [hs] at h; exact Except.noConfusion h
      | ok sev =>
        simp only [hs] at h
        cases ht : sizeResults n fk s rest with
        | error e => simp only [ht] at h; exact Except.noConfusion h
        | ok tail =>
          simp only [ht, Except.ok.injEq] at h
          subst h
          rcases List.mem_cons.mp hq with hq0 | hqt
          · subst hq0; exact he
          · exact ih tail ht q hqt

/-- C1: for every table and every call to `estimate` with integer parameters
that returns a result, each sample's result sequence contains a point whose
depth is that sample's observed total individual count `n`, and every point at
that depth carries `expectedRichness = s_obs` exactly. -/
theorem estimate_anchor_point_exact (table : List (List ℕ)) (a b c : ℤ)
    (results : List (List (ℤ × ℚ × ℚ)))
    (h : estimatorCall table (some a) (some b) (some c) = Except.ok results) :
    results.length = table.length ∧
    ∀ i, i < table.length →
      (∃ se, (((table.getD i []).sum : ℤ), ((observationCount (table.getD i []) : ℚ)), se)
          ∈ results.getD i []) ∧
      (∀ p ∈ results.getD i [], p.1 = ((table.getD i []).sum : ℤ) →
          p.2.1 = (observationCount (table.getD i []) : ℚ)) := by
  induction table generalizing results with
  | nil =>
    simp only [estimatorCall, Except.ok.injEq] at h
    subst h
    exact ⟨rfl, fun i hi => absurd hi (by simp)⟩
  | cons s rest ih =>
    simp only [estimatorCall] at h
    cases hp : getPointsToEstimate (some a) (some b) (some c) (s.sum : ℤ) with
    | error e => simp only [hp] at h; exact Except.noConfusion h
    | ok pts =>
      simp only [hp] at h
      cases hr : sizeResults s.sum ((abundanceFrequencyCounts s).map (fun (x : ℕ) => (x : ℚ)))
          (observationCount s : ℚ) pts with
      | error e => simp only [hr] at h; exact Except.noConfusion h
      | ok res =>
        simp only [hr] at h
        cases ht : estimatorCall rest (some a) (some b) (some c) with
        | error e => simp only [ht] at h; exact Except.noConfusion h
        | ok tailr =>
          simp only [ht, Except.ok.injEq] at h
          subst h
          obtain ⟨hlen, hall⟩ := ih tailr ht
          refine ⟨by simpa using hlen, ?_⟩
          intro i hi
          cases i with
          | zero =>
            simp only [List.getD_cons_zero]
            constructor
            · have hmem := getPointsToEstimate_ok_mem _ _ _ _ _ hp
              obtain ⟨e, se, hin, hee⟩ := sizeResults_mem _ _ _ _ _ hr _ hmem
              rw [estimateExpectedObservationCount_at_self] at hee
              obtain rfl : (observationCount s : ℚ) = e := by
                injection hee
              exact ⟨se, hin⟩
            · intro p hpmem hp1
              have := sizeResults_sound _ _ _ _ _ hr p hpmem
              rw [hp1, estimateExpectedObservationCount_at_self] at this
              injection this with h2
              exact h2.symm
          | succ j =>
            simp only [List.getD_cons_succ]
            exact hall j (by simpa using hi)

/-- Witness for C1: the table `[[1,1]]` (one sample, two singleton
categories, `n = 2`, `s_obs = 2`), estimated from 1 to 2 with step 1,
produces a curve containing the anchor point `(2, 2, ·)`. -/
theorem estimate_anchor_point_exact_witness :
    estimatorCall [[1, 1]] (some 1) (some 2) (some 1) =
      Except.ok [[(1, 1, 1/6), (2, 2, 2/3)]] ∧
    (∃ se, ((2 : ℤ), (2 : ℚ), se) ∈ [((1 : ℤ), (1 : ℚ), (1/6 : ℚ)), (2, 2, 2/3)]) := by
  have hab : abundanceFrequencyCounts [1, 1] = [2, 0] := rfl
  have hfk : (abundanceFrequencyCounts [1, 1]).map (fun (a : ℕ) => (a : ℚ)) = [2, 0] := by
    rw [hab]; norm_num
  have hsum : ([1, 1] : List ℕ).sum = 2 := rfl
  have hobs : observationCount [1, 1] = 2 := rfl
  have hpts : getPointsToEstimate (some 1) (some 2) (some 1) (2 : ℤ) = .ok [1, 2] := rfl
  have he1 : estimateExpectedObservationCount 1 2 [2, 0] 2 = .ok 1 := by
    norm_num [estimateExpectedObservationCount, calculate_alpha_km, Nat.factorial,
      Finset.sum_range_succ]
  have hs1 : estimateExpectedObservationCountStdErr 1 2 [2, 0] 2 1 = .ok (1/6) := by
    norm_num [estimateExpectedObservationCountStdErr, estimateFullRichness,
      estimateUnobservedObservationCount, List.get?, calculate_alpha_km, Nat.factorial,
      Finset.sum_range_succ]
  have he2 : estimateExpectedObservationCount 2 2 [2, 0] 2 = .ok 2 := by
    norm_num [estimateExpectedObservationCount, calculate_alpha_km, Nat.factorial,
      Finset.sum_range_succ]
  have hs2 : estimateExpectedObservationCountStdErr 2 2 [2, 0] 2 2 = .ok (2/3) := by
    norm_num [estimateExpectedObservationCountStdErr, estimateFullRichness,
      estimateUnobservedObservationCount, List.get?, calculate_alpha_km, Nat.factorial,
      Finset.sum_range_succ]
  have hsz : sizeResults 2 [2, 0] 2 [1, 2] = .ok [(1, 1, 1/6), (2, 2, 2/3)] := by
    simp only [sizeResults, he1, hs1, he2, hs2]
  have hcall : estimatorCall [[1, 1]] (some 1) (some 2) (some 1) =
      Except.ok [[(1, 1, 1/6), (2, 2, 2/3)]] := by
    simp only [estimatorCall, hsum, hobs, hfk, Nat.cast_ofNat, hpts, hsz]
  refine ⟨hcall, ?_⟩
  have h := estimate_anchor_point_exact [[1, 1]] 1 2 1 _ hcall
  have h0 := (h.2 0 (by norm_num)).1
  rw [show ([[1, 1]] : List (List ℕ)).getD 0 [] = [1, 1] from rfl,
    show (([1, 1] : List ℕ).sum : ℤ) = 2 from rfl,
    show (observationCount [1, 1] : ℚ) = 2 from rfl] at h0
  exact h0

/-- C2 (code-bug evidence): calling `estimate` with `stop` omitted always
fails with the parameter `ValueError` on a non-empty table, whatever the
other arguments are — `stop` is never defaulted to the sample's observed
total.  Under Python 2, `None` compares below 1, so either
`start < 1 or step_size < 1` (when `step_size` is `None`) or `start > stop`
(when only `stop` is `None`) fires. -/
theorem estimate_stop_omitted_raises (table : List (List ℕ))
    (start step_size : Option ℤ) (hT : table ≠ []) :
    estimatorCall table start none step_size = .error .invalidParameter := by
  rcases table with _ | ⟨s, rest⟩
  · exact absurd rfl hT
  · have hp : getPointsToEstimate start none step_size (s.sum : ℤ) =
        .error .invalidParameter := by
      unfold getPointsToEstimate
      rcases start with _ | a
      · rw [if_pos (by simp [pyLt])]
      · rcases step_size with _ | c
        · rw [if_pos (by simp [pyLt])]
        · by_cases h1 : (pyLt (some a) (some 1) || pyLt (some c) (some 1)) = true
          · rw [if_pos h1]
          · rw [if_neg h1, if_pos (by simp [pyLt])]
    simp only [estimatorCall, hp]

/-- Witness for C2 at its failing input: the spec's concrete sample
`[1,1,2,3]` with `estimate(start=1)` and both `stop` and `stepSize`
omitted. -/
theorem estimate_stop_omitted_raises_witness :
    estimatorCall [[1, 1, 2, 3]] (some 1) none none = .error .invalidParameter :=
  estimate_stop_omitted_raises [[1, 1, 2, 3]] (some 1) none (by simp)

/-- C3 (code-bug evidence): for the valid table `[[1,3]]` (one sample with a
singleton and a tripleton: `n = 4`, `s_obs = 2`, `fk = [1,0,1,0]`, so
`f1 = 1`, `f2 = 0` and the unobserved-count estimate `f̂ = f1(f1-1)/2 = 0`),
extrapolating to depth `m = 5 > n` reaches the unguarded division
`f1 / (n·f̂)` with a zero denominator: there is no special case for
`f̂ == 0`, and the call aborts instead of returning `s_obs`. -/
theorem estimate_fhat_zero_division_reachable :
    estimatorCall [[1, 3]] (some 1) (some 5) (some 1) = .error .zeroDivision := by
  have hab : abundanceFrequencyCounts [1, 3] = [1, 0, 1, 0] := rfl
  have hfk : (abundanceFrequencyCounts [1, 3]).map (fun (a : ℕ) => (a : ℚ)) = [1, 0, 1, 0] := by
    rw [hab]; norm_num
  have hsum : ([1, 3] : List ℕ).sum = 4 := rfl
  have hobs : observationCount [1, 3] = 2 := rfl
  have hpts : getPointsToEstimate (some 1) (some 5) (some 1) (4 : ℤ) =
      .ok [1, 2, 3, 4, 5] := rfl
  have he1 : estimateExpectedObservationCount 1 4 [1, 0, 1, 0] 2 = .ok 1 := by
    norm_num [estimateExpectedObservationCount, calculate_alpha_km, Nat.factorial,
      Finset.sum_range_succ]
  have hs1 : estimateExpectedObservationCountStdErr 1 4 [1, 0, 1, 0] 2 1 = .ok (1/8) := by
    norm_num [estimateExpectedObservationCountStdErr, estimateFullRichness,
      estimateUnobservedObservationCount, List.get?, calculate_alpha_km, Nat.factorial,
      Finset.sum_range_succ]
  have he2 : estimateExpectedObservationCount 2 4 [1, 0, 1, 0] 2 = .ok (3/2) := by
    norm_num [estimateExpectedObservationCount, calculate_alpha_km, Nat.factorial,
      Finset.sum_range_succ]
  have hs2 : estimateExpectedObservationCountStdErr 2 4 [1, 0, 1, 0] 2 (3/2) = .ok (1/8) := by
    norm_num [estimateExpectedObservationCountStdErr, estimateFullRichness,
      estimateUnobservedObservationCount, List.get?, calculate_alpha_km, Nat.factorial,
      Finset.sum_range_succ]
  have he3 : estimateExpectedObservationCount 3 4 [1, 0, 1, 0] 2 = .ok (7/4) := by
    norm_num [estimateExpectedObservationCount, calculate_alpha_km, Nat.factorial,
      Finset.sum_range_succ]
  have hs3 : estimateExpectedObservationCountStdErr 3 4 [1, 0, 1, 0] 2 (7/4) = .ok (1/32) := by
    norm_num [estimateExpectedObservationCountStdErr, estimateFullRichness,
      estimateUnobservedObservationCount, List.get?, calculate_alpha_km, Nat.factorial,
      Finset.sum_range_succ]
  have he4 : estimateExpectedObservationCount 4 4 [1, 0, 1, 0] 2 = .ok 2 := by
    norm_num [estimateExpectedObservationCount, calculate_alpha_km, Nat.factorial,
      Finset.sum_range_succ]
  have hs4 : estimateExpectedObservationCountStdErr 4 4 [1, 0, 1, 0] 2 2 = .ok 0 := by
    norm_num [estimateExpectedObservationCountStdErr, estimateFullRichness,
      estimateUnobservedObservationCount, List.get?, calculate_alpha_km, Nat.factorial,
      Finset.sum_range_succ]
  have he5 : estimateExpectedObservationCount 5 4 [1, 0, 1, 0] 2 = .error .zeroDivision := by
    norm_num [estimateExpectedObservationCount, estimateUnobservedObservationCount, List.get?]
  have hsz : sizeResults 4 [1, 0, 1, 0] 2 [1, 2, 3, 4, 5] = .error .zeroDivision := by
    simp only [sizeResults, he1, hs1, he2, hs2, he3, hs3, he4, hs4, he5]
  simp only [estimatorCall, hsum, hobs, hfk, Nat.cast_ofNat, hpts, hsz]

/-- C4: for every frequency-count vector (non-negative `f1 = fk[0]`,
`f2 = fk[1]`), the bias-corrected estimator returns `f1²/(2 f2)` when
`f2 > 0` and `f1 (f1 - 1)/2` when `f2 = 0`. -/
theorem chao1_unobserved_count_formula (fk : List ℚ) (f1 f2 : ℚ)
    (h0 : fk.get? 0 = some f1) (h1 : fk.get? 1 = some f2)
    (hf1 : 0 ≤ f1) (hf2 : 0 ≤ f2) :
    (0 < f2 → estimateUnobservedObservationCount fk = .ok (f1 ^ 2 / (2 * f2))) ∧
    (f2 = 0 → estimateUnobservedObservationCount fk = .ok (f1 * (f1 - 1) / 2)) := by
  constructor
  · intro hpos
    simp only [estimateUnobservedObservationCount, h0, h1]
    rw [if_neg (by push_neg; exact ⟨hf1, hf2⟩), if_pos hpos]
  · intro hz
    simp only [estimateUnobservedObservationCount, h0, h1]
    rw [if_neg (by push_neg; exact ⟨hf1, hf2⟩), if_neg (by rw [hz]; exact lt_irrefl 0), hz]
    norm_num

/-- Witness for C4: the spec's two concrete cases, `fk = [2,1,1,0,...]`
(`f1 = 2`, `f2 = 1 > 0`, estimate `4/2 = 2`) and `fk = [3,0]` (`f1 = 3`,
`f2 = 0`, estimate `3·2/2 = 3`). -/
theorem chao1_unobserved_count_formula_witness :
    estimateUnobservedObservationCount [2, 1, 1, 0, 0, 0, 0] = .ok 2 ∧
    estimateUnobservedObservationCount [3, 0] = .ok 3 := by
  constructor
  · have h := (chao1_unobserved_count_formula [2, 1, 1, 0, 0, 0, 0] 2 1 rfl rfl
      (by norm_num) (by norm_num)).1 (by norm_num)
    rw [h]; norm_num
  · have h := (chao1_unobserved_count_formula [3, 0] 3 0 rfl rfl
      (by norm_num) (by norm_num)).2 rfl
    rw [h]; norm_num

/-- C6 counterexample: at `n = 7`, `k = 1`, `m = 2` the guard `k ≤ n - m`
holds and `_calculate_alpha_km` evaluates `math.factorial` at `n = 7`
itself, contradicting the claim that the factorial of `n` is never
evaluated as an intermediate value. -/
theorem alpha_evaluates_factorial_n_counterexample :
    (7 : ℤ) ∈ alphaFactorialCalls 7 1 2 := by decide

/-- C6 amended: the interpolation weight is computed directly from
factorials, not as a product of falling-factorial ratios: the code evaluates
`factorial` at `n - k`, `n - m`, `n` and `n - k - m` — in particular at `n`
itself — exactly when the branch guard `k ≤ n - m` holds (and evaluates no
factorial otherwise). -/
theorem alpha_evaluates_factorial_n (n k : ℕ) (m : ℤ) :
    ((n : ℤ) ∈ alphaFactorialCalls n k m) ↔ (k : ℤ) ≤ (n : ℤ) - m := by
  unfold alphaFactorialCalls
  by_cases h : (k : ℤ) ≤ (n : ℤ) - m
  · simp [h]
  · simp only [if_neg h, List.not_mem_nil, false_iff]
    exact h

/-- C8: engine construction fails with `EmptyTableError` exactly on a table
with zero samples, fails with `EmptySampleError` exactly on a non-empty
table with some sample whose total individual count is below 1, and
succeeds on every valid table. -/
theorem estimatorInit_spec (table : List (List ℕ)) :
    (estimatorInit table = .error .emptyTable ↔ table = []) ∧
    (estimatorInit table = .error .emptySample ↔
      table ≠ [] ∧ ∃ s ∈ table, s.sum < 1) ∧
    ((table ≠ [] ∧ ∀ s ∈ table, 1 ≤ s.sum) → estimatorInit table = .ok ()) := by
  unfold estimatorInit
  by_cases hT : table.isEmpty
  · have hnil : table = [] := List.isEmpty_iff.mp hT
    subst hnil
    refine ⟨iff_of_true (by rfl) rfl, iff_of_false (by decide) ?_, ?_⟩
    · rintro ⟨hne, -⟩; exact hne rfl
    · rintro ⟨hne, -⟩; exact absurd rfl hne
  · rw [if_neg hT]
    have hne : table ≠ [] := fun h => hT (by rw [h]; rfl)
    by_cases hS : (getTotalIndividualCounts table).any (fun c => decide (c < 1))
    · rw [if_pos hS]
      have hex : ∃ s ∈ table, s.sum < 1 := by
        obtain ⟨c, hc, hlt⟩ := List.any_eq_true.mp hS
        obtain ⟨s, hs, rfl⟩ := List.mem_map.mp hc
        exact ⟨s, hs, by simpa [totalIndividualCount] using hlt⟩
      refine ⟨iff_of_false (by decide) hne, iff_of_true rfl ⟨hne, hex⟩, ?_⟩
      rintro ⟨-, hall⟩
      obtain ⟨s, hs, hlt⟩ := hex
      exact absurd (hall s hs) (by omega)
    · rw [if_neg hS]
      refine ⟨iff_of_false (by decide) hne, iff_of_false (by decide) ?_, fun _ => rfl⟩
      rintro ⟨-, s, hs, hlt⟩
      apply hS
      refine List.any_eq_true.mpr ⟨s.sum, ?_, by simpa using hlt⟩
      exact List.mem_map.mpr ⟨s, hs, rfl⟩

/-- Witness for C8: construction succeeds on the valid table `[[1,2]]`. -/
theorem estimatorInit_spec_witness : estimatorInit [[1, 2]] = .ok () :=
  (estimatorInit_spec [[1, 2]]).2.2 ⟨by simp, by intro s hs; simp at hs; subst hs; norm_num⟩

/-! Classification of the runtime errors the estimation pipeline can raise
on frequency counts derived from a table (which are casts of naturals, so
the negative-frequency `ValueError` is unreachable). -/

lemma cast_getD_nonneg (F : List ℕ) (i : ℕ) :
    0 ≤ (F.map (fun (a : ℕ) => (a : ℚ))).getD i 0 := by
  induction F generalizing i with
  | nil => cases i <;> exact le_refl 0
  | cons a t ih =>
    cases i with
    | zero => exact Nat.cast_nonneg a
    | succ j => exact ih j

lemma cast_get?_eq (F : List ℕ) (i : ℕ) :
    (F.map (fun (a : ℕ) => (a : ℚ))).get? i = (F.get? i).map (fun (a : ℕ) => (a : ℚ)) := by
  induction F generalizing i with
  | nil => cases i <;> rfl
  | cons a t ih =>
    cases i with
    | zero => rfl
    | succ j => exact ih j

lemma estimateUnobserved_cast_error (F : List ℕ) (e : EstErr)
    (h : estimateUnobservedObservationCount (F.map (fun (a : ℕ) => (a : ℚ))) = .error e) :
    e = .indexError := by
  unfold estimateUnobservedObservationCount at h
  rw [cast_get?_eq, cast_get?_eq] at h
  cases h0 : F.get? 0 with
  | none => simp only [h0, Option.map_none'] at h; injection h with h; exact h.symm
  | some a =>
    cases h1 : F.get? 1 with
    | none =>
      simp only [h0, h1, Option.map_none', Option.map_some'] at h
      injection h with h
      exact h.symm
    | some b =>
      simp only [h0, h1, Option.map_some'] at h
      rw [if_neg (by push_neg; exact ⟨Nat.cast_nonneg a, Nat.cast_nonneg b⟩)] at h
      split at h <;> exact Except.noConfusion h

lemma estimateExpected_cast_error (m : ℤ) (n : ℕ) (F : List ℕ) (s : ℚ) (e : EstErr)
    (h : estimateExpectedObservationCount m n (F.map (fun (a : ℕ) => (a : ℚ))) s = .error e) :
    e = .indexError ∨ e = .zeroDivision := by
  unfold estimateExpectedObservationCount at h
  split at h
  · exact Except.noConfusion h
  · cases hu : estimateUnobservedObservationCount (F.map (fun (a : ℕ) => (a : ℚ))) with
    | error eu =>
      simp only [hu] at h
      injection h with h
      exact Or.inl (h ▸ estimateUnobserved_cast_error F eu hu)
    | ok f_hat =>
      simp only [hu] at h
      split at h
      · injection h with h; exact Or.inr h.symm
      · exact Except.noConfusion h

lemma estimateStdErr_cast_error (m : ℤ) (n : ℕ) (F : List ℕ) (s s_m : ℚ) (e : EstErr)
    (h : estimateExpectedObservationCountStdErr m n (F.map (fun (a : ℕ) => (a : ℚ))) s s_m
      = .error e) :
    e = .indexError ∨ e = .zeroDivision := by
  unfold estimateExpectedObservationCountStdErr at h
  split at h
  · cases hu : estimateFullRichness (F.map (fun (a : ℕ) => (a : ℚ))) s with
    | error eu =>
      simp only [hu] at h
      injection h with h
      subst h
      unfold estimateFullRichness at hu
      cases hu2 : estimateUnobservedObservationCount (F.map (fun (a : ℕ) => (a : ℚ))) with
      | error eu2 =>
        simp only [hu2] at hu
        injection hu with hu
        exact Or.inl (hu ▸ estimateUnobserved_cast_error F eu2 hu2)
      | ok u => simp only [hu2] at hu; exact Except.noConfusion hu
    | ok s_est =>
      simp only [hu] at h
      split at h
      · injection h with h; exact Or.inr h.symm
      · exact Except.noConfusion h
  · cases hu : estimateUnobservedObservationCount (F.map (fun (a : ℕ) => (a : ℚ))) with
    | error eu =>
      simp only [hu] at h
      injection h with h
      exact Or.inl (h ▸ estimateUnobserved_cast_error F eu hu)
    | ok f_hat =>
      simp only [hu] at h
      split at h
      · injection h with h; exact Or.inr h.symm
      · exact Except.noConfusion h

lemma sizeResults_cast_error (n : ℕ) (F : List ℕ) (s : ℚ) (pts : List ℤ) (e : EstErr)
    (h : sizeResults n (F.map (fun (a : ℕ) => (a : ℚ))) s pts = .error e) :
    e = .indexError ∨ e = .zeroDivision := by
  induction pts with
  | nil => simp only [sizeResults] at h; exact Except.noConfusion h
  | cons q rest ih =>
    simp only [sizeResults] at h
    cases he : estimateExpectedObservationCount q n (F.map (fun (a : ℕ) => (a : ℚ))) s with
    | error e1 =>
      simp only [he] at h
      injection h with h
      exact h ▸ estimateExpected_cast_error q n F s e1 he
    | ok ev =>
      simp only [he] at h
      cases hs : estimateExpectedObservationCountStdErr q n (F.map (fun (a : ℕ) => (a : ℚ))) s ev with
      | error e2 =>
        simp only [hs] at h
        injection h with h
        exact h ▸ estimateStdErr_cast_error q n F s ev e2 hs
      | ok sev =>
        simp only [hs] at h
        cases ht : sizeResults n (F.map (fun (a : ℕ) => (a : ℚ))) s rest with
        | error e3 =>
          simp only [ht] at h
          injection h with h
          exact ih (h ▸ ht)
        | ok tail => simp only [ht] at h; exact Except.noConfusion h

lemma estimatorCall_valid_no_param_error (table : List (List ℕ)) (a b c : ℤ)
    (hv : ¬(a < 1 ∨ c < 1 ∨ a > b)) :
    estimatorCall table (some a) (some b) (some c) ≠ .error .invalidParameter := by
  induction table with
  | nil => intro h; exact Except.noConfusion h
  | cons s rest ih =>
    intro h
    simp only [estimatorCall, getPointsToEstimate_valid a b c (s.sum : ℤ) hv] at h
    cases hsr : sizeResults s.sum ((abundanceFrequencyCounts s).map (fun (x : ℕ) => (x : ℚ)))
        (observationCount s : ℚ)
        (if (s.sum : ℤ) ∈ rangeList a b c then rangeList a b c
         else insortList (rangeList a b c) (s.sum : ℤ)) with
    | error e1 =>
      simp only [hsr] at h
      injection h with h
      subst h
      rcases sizeResults_cast_error _ _ _ _ _ hsr with h2 | h2 <;> exact EstErr.noConfusion h2
    | ok res =>
      simp only [hsr] at h
      cases ht : estimatorCall rest (some a) (some b) (some c) with
      | error e2 =>
        simp only [ht] at h
        injection h with h
        exact ih (h ▸ ht)
      | ok tailr => simp only [ht] at h; exact Except.noConfusion h

/-- C7: a call to `estimate` on a non-empty table with integer parameters
raises the parameter `ValueError` if and only if `start < 1`, or
`stepSize < 1`, or `start > stop`; no other condition produces this error
(the only other errors the pipeline can raise are the index and
division-by-zero errors, which are distinct exceptions). -/
theorem estimate_invalid_parameter_iff (table : List (List ℕ)) (a b c : ℤ)
    (hT : table ≠ []) :
    (estimatorCall table (some a) (some b) (some c) = .error .invalidParameter) ↔
      (a < 1 ∨ c < 1 ∨ a > b) := by
  constructor
  · intro h
    by_contra hv
    exact estimatorCall_valid_no_param_error table a b c hv h
  · intro hv
    rcases table with _ | ⟨s, rest⟩
    · exact absurd rfl hT
    · simp only [estimatorCall, getPointsToEstimate_invalid a b c (s.sum : ℤ) hv]

/-- Witness for C7: `start = 0 < 1` on the table `[[1]]` raises the
parameter error. -/
theorem estimate_invalid_parameter_iff_witness :
    estimatorCall [[1]] (some 0) (some 5) (some 1) = .error .invalidParameter :=
  (estimate_invalid_parameter_iff [[1]] 0 5 1 (by simp)).mpr (Or.inl (by norm_num))

/-! Counting identities behind the abundance-frequency-count derivation. -/

lemma count_cons_eq (x k : ℕ) (t : List ℕ) :
    (x :: t).count k = t.count k + (if k = x then 1 else 0) := by
  rw [List.count_cons]
  by_cases h : k = x
  · simp [h]
  · have h2 : ¬x = k := fun hc => h hc.symm
    simp [h, h2]

lemma sum_mul_count (s : List ℕ) (N : ℕ) (hN : ∀ x ∈ s, x ≤ N) :
    ∑ i in Finset.range N, (i + 1) * s.count (i + 1) = s.sum := by
  induction s with
  | nil => simp
  | cons x t ih =>
    have hx : x ≤ N := hN x (List.mem_cons_self x t)
    have ht : ∀ y ∈ t, y ≤ N := fun y hy => hN y (List.mem_cons_of_mem x hy)
    have hsplit : ∀ i ∈ Finset.range N,
        (i + 1) * (x :: t).count (i + 1) =
          (i + 1) * t.count (i + 1) + (if i + 1 = x then i + 1 else 0) := by
      intro i _
      rw [count_cons_eq, Nat.mul_add]
      by_cases h : i + 1 = x <;> simp [h]
    rw [Finset.sum_congr rfl hsplit, Finset.sum_add_distrib, ih ht]
    have hsec : (∑ i in Finset.range N, if i + 1 = x then i + 1 else 0) = x := by
      cases x with
      | zero => simp
      | succ y =>
        have hy : y ∈ Finset.range N := Finset.mem_range.mpr (by omega)
        have : ∀ i, (if i + 1 = y + 1 then i + 1 else 0) = (if i = y then i + 1 else 0) := by
          intro i
          by_cases h : i = y
          · simp [h]
          · rw [if_neg (by omega), if_neg h]
        calc (∑ i in Finset.range N, if i + 1 = y + 1 then i + 1 else 0)
            = ∑ i in Finset.range N, if i = y then i + 1 else 0 :=
              Finset.sum_congr rfl (fun i _ => this i)
          _ = y + 1 := by rw [Finset.sum_ite_eq' (Finset.range N) y (fun i => i + 1), if_pos hy]
    rw [hsec, List.sum_cons]
    omega

lemma sum_count_eq_obs (s : List ℕ) (N : ℕ) (hN : ∀ x ∈ s, x ≤ N) :
    ∑ i in Finset.range N, s.count (i + 1) =
      (s.filter (fun e => decide (0 < e))).length := by
  induction s with
  | nil => simp
  | cons x t ih =>
    have hx : x ≤ N := hN x (List.mem_cons_self x t)
    have ht : ∀ y ∈ t, y ≤ N := fun y hy => hN y (List.mem_cons_of_mem x hy)
    have hsplit : ∀ i ∈ Finset.range N,
        (x :: t).count (i + 1) = t.count (i + 1) + (if i + 1 = x then 1 else 0) :=
      fun i _ => count_cons_eq x (i + 1) t
    rw [Finset.sum_congr rfl hsplit, Finset.sum_add_distrib, ih ht]
    have hsec : (∑ i in Finset.range N, if i + 1 = x then 1 else 0) =
        (if 0 < x then 1 else 0) := by
      cases x with
      | zero => simp
      | succ y =>
        have hy : y ∈ Finset.range N := Finset.mem_range.mpr (by omega)
        have : ∀ i, (if i + 1 = y + 1 then (1 : ℕ) else 0) = (if i = y then 1 else 0) := by
          intro i
          by_cases h : i = y
          · simp [h]
          · rw [if_neg (by omega), if_neg h]
        rw [Finset.sum_congr rfl (fun i _ => this i),
          Finset.sum_ite_eq' (Finset.range N) y (fun _ => 1), if_pos hy, if_pos (Nat.succ_pos y)]
    rw [hsec]
    by_cases h : 0 < x
    · rw [List.filter_cons_of_pos (by simpa using h), List.length_cons, if_pos h]
    · rw [List.filter_cons_of_neg (by simpa using h), if_neg h, Nat.add_zero]

lemma abundanceFrequencyCounts_getD (s : List ℕ) (i : ℕ) (hi : i < s.sum) :
    (abundanceFrequencyCounts s).getD i 0 = s.count (i + 1) := by
  unfold abundanceFrequencyCounts
  show (((List.range s.sum).map (fun i => s.count (i + 1))).get? i).getD 0 = s.count (i + 1)
  rw [List.get?_eq_getElem?, List.getElem?_map, List.getElem?_range hi]
  rfl

/-- C10: for every sample, the derived abundance-frequency-count vector has
length `n` (the sample's total individual count), its weighted sum
`Σ k·fk[k-1]` recovers `n`, and its plain sum recovers `s_obs` (the sample's
observed category count). -/
theorem abundance_frequency_counts_invariants (s : List ℕ) :
    (abundanceFrequencyCounts s).length = s.sum ∧
    (∑ i in Finset.range s.sum, (i + 1) * (abundanceFrequencyCounts s).getD i 0) = s.sum ∧
    (∑ i in Finset.range s.sum, (abundanceFrequencyCounts s).getD i 0) = observationCount s := by
  have hle : ∀ x ∈ s, x ≤ s.sum := fun x hx => List.le_sum_of_mem hx
  refine ⟨?_, ?_, ?_⟩
  · unfold abundanceFrequencyCounts
    rw [List.length_map, List.length_range]
  · rw [Finset.sum_congr rfl (fun i hi =>
      by rw [abundanceFrequencyCounts_getD s i (Finset.mem_range.mp hi)])]
    exact sum_mul_count s s.sum hle
  · rw [Finset.sum_congr rfl (fun i hi =>
      by rw [abundanceFrequencyCounts_getD s i (Finset.mem_range.mp hi)])]
    exact sum_count_eq_obs s s.sum hle

/-- C9: in the interpolation regime (`1 ≤ m ≤ n`), for any frequency-count
vector with non-negative entries summing to `s_obs`, the expected richness
is returned successfully and satisfies `0 ≤ estimate ≤ s_obs` (each weight
`α(n,k,m)` lies in `[0,1]`). -/
theorem interpolation_estimate_bounds (n : ℕ) (m : ℤ) (fk : List ℚ) (s_obs : ℚ)
    (hm1 : 1 ≤ m) (hmn : m ≤ (n : ℤ))
    (hpos : ∀ i, 0 ≤ fk.getD i 0)
    (hsum : ∑ i in Finset.range n, fk.getD i 0 = s_obs) :
    ∃ v, estimateExpectedObservationCount m n fk s_obs = .ok v ∧ 0 ≤ v ∧ v ≤ s_obs := by
  have hok : estimateExpectedObservationCount m n fk s_obs =
      .ok (s_obs - ∑ k in Finset.range n, calculate_alpha_km n (k + 1) m * fk.getD k 0) := by
    unfold estimateExpectedObservationCount
    rw [if_pos hmn]
  refine ⟨_, hok, ?_, ?_⟩
  · have hub : (∑ k in Finset.range n, calculate_alpha_km n (k + 1) m * fk.getD k 0) ≤
        ∑ k in Finset.range n, fk.getD k 0 := by
      apply Finset.sum_le_sum
      intro k hk
      exact mul_le_of_le_one_left (hpos k)
        (calculate_alpha_km_le_one n (k + 1) m (by omega)
          (by have := Finset.mem_range.mp hk; omega))
    rw [hsum] at hub
    linarith
  · have hlb : 0 ≤ ∑ k in Finset.range n, calculate_alpha_km n (k + 1) m * fk.getD k 0 :=
      Finset.sum_nonneg fun k _ =>
        mul_nonneg (calculate_alpha_km_nonneg n (k + 1) m) (hpos k)
    linarith

/-- Witness for C9: `n = 2`, `m = 1`, `fk = [2,0]`, `s_obs = 2` (estimate is
`1 ∈ [0, 2]`). -/
theorem interpolation_estimate_bounds_witness :
    ∃ v, estimateExpectedObservationCount 1 2 [2, 0] 2 = .ok v ∧ 0 ≤ v ∧ v ≤ 2 := by
  refine interpolation_estimate_bounds 2 1 [2, 0] 2 (by norm_num) (by norm_num) ?_ ?_
  · intro i
    rcases i with _ | _ | j
    · norm_num
    · norm_num
    · show (0 : ℚ) ≤ ([] : List ℚ).getD j 0
      rcases j with _ | j <;> exact le_refl 0
  · rw [Finset.sum_range_succ, Finset.sum_range_succ, Finset.sum_range_zero]
    norm_num

/-- For frequency counts derived from a real sample (natural entries whose
weighted sum `Σ (i+1)·F[i]` over the first `n` indices equals `n`, with
`F` of length `n`), a successful unobserved-count estimate with
`n · f̂ ≠ 0` satisfies `0 ≤ f̂` and `f1 ≤ n · f̂` (so the discovery
probability `f1/(n·f̂)` lies in `[0,1]`). -/
lemma unobserved_ok_bounds (F : List ℕ) (n : ℕ) (f_hat : ℚ)
    (hlen : F.length = n)
    (hsum : ∑ i in Finset.range n, (i + 1) * F.getD i 0 = n)
    (hu : estimateUnobservedObservationCount (F.map (fun (a : ℕ) => (a : ℚ))) = .ok f_hat)
    (hnz : (n : ℚ) * f_hat ≠ 0) :
    0 ≤ f_hat ∧ 0 ≤ (F.map (fun (a : ℕ) => (a : ℚ))).getD 0 0 ∧
      (F.map (fun (a : ℕ) => (a : ℚ))).getD 0 0 ≤ (n : ℚ) * f_hat := by
  unfold estimateUnobservedObservationCount at hu
  rw [cast_get?_eq, cast_get?_eq] at hu
  cases h0 : F.get? 0 with
  | none => rw [h0] at hu; exact Except.noConfusion hu
  | some F0 =>
  cases h1 : F.get? 1 with
  | none =>
    simp only [h0, h1, Option.map_none', Option.map_some'] at hu
    exact Except.noConfusion hu
  | some F1 =>
  simp only [h0, h1, Option.map_some'] at hu
  rw [if_neg (by push_neg; exact ⟨Nat.cast_nonneg F0, Nat.cast_nonneg F1⟩)] at hu
  have hgd : (F.map (fun (a : ℕ) => (a : ℚ))).getD 0 0 = (F0 : ℚ) := by
    show ((F.map (fun (a : ℕ) => (a : ℚ))).get? 0).getD 0 = (F0 : ℚ)
    rw [cast_get?_eq, h0]
    rfl
  have hn2 : 2 ≤ n := by
    have : 1 < F.length := by
      cases F with
      | nil => exact absurd h1 (by simp)
      | cons a t =>
        cases t with
        | nil => exact absurd h1 (by simp)
        | cons b t2 => simp
    omega
  have hgd0 : F.getD 0 0 = F0 := by
    show (F.get? 0).getD 0 = F0
    rw [h0]; rfl
  have hgd1 : F.getD 1 0 = F1 := by
    show (F.get? 1).getD 0 = F1
    rw [h1]; rfl
  have hbound : F0 + 2 * F1 ≤ n := by
    have hsub : ({0, 1} : Finset ℕ) ⊆ Finset.range n := by
      intro x hx
      simp only [Finset.mem_insert, Finset.mem_singleton] at hx
      rcases hx with rfl | rfl <;> exact Finset.mem_range.mpr (by omega)
    have hle : (∑ i in ({0, 1} : Finset ℕ), (i + 1) * F.getD i 0) ≤
        ∑ i in Finset.range n, (i + 1) * F.getD i 0 :=
      Finset.sum_le_sum_of_subset hsub
    have heq : (∑ i in ({0, 1} : Finset ℕ), (i + 1) * F.getD i 0) =
        F.getD 0 0 + 2 * F.getD 1 0 := by
      rw [Finset.sum_insert (by simp), Finset.sum_singleton]
      ring
    rw [heq, hgd0, hgd1, hsum] at hle
    omega
  have hnq : (2 : ℚ) ≤ (n : ℚ) := by exact_mod_cast hn2
  have hboundq : (F0 : ℚ) + 2 * (F1 : ℚ) ≤ (n : ℚ) := by exact_mod_cast hbound
  rw [hgd]
  by_cases hf2 : (0 : ℚ) < (F1 : ℚ)
  · rw [if_pos hf2] at hu
    injection hu with hu
    subst hu
    have hfh : 0 ≤ (F0 : ℚ) ^ 2 / (2 * (F1 : ℚ)) := by positivity
    refine ⟨hfh, Nat.cast_nonneg F0, ?_⟩
    have hF0pos : 1 ≤ (F0 : ℚ) := by
      rcases Nat.eq_zero_or_pos F0 with rfl | hpos
      · exfalso
        apply hnz
        norm_num
      · exact_mod_cast hpos
    have hF1pos : 1 ≤ (F1 : ℚ) := by
      have : 0 < F1 := by exact_mod_cast hf2
      exact_mod_cast this
    rw [mul_div_assoc']
    rw [le_div_iff₀ (by positivity)]
    nlinarith [sq_nonneg ((F0 : ℚ) - 1)]
  · rw [if_neg hf2] at hu
    injection hu with hu
    have hF1z : (F1 : ℚ) = 0 := le_antisymm (not_lt.mp hf2) (Nat.cast_nonneg F1)
    rw [hF1z] at hu
    norm_num at hu
    subst hu
    have hF0ge2 : 2 ≤ (F0 : ℚ) := by
      have : 2 ≤ F0 := by
        by_contra hlt
        push_neg at hlt
        interval_cases F0 <;> apply hnz <;> norm_num
      exact_mod_cast this
    have hfh : 0 ≤ (F0 : ℚ) * ((F0 : ℚ) - 1) / 2 := by nlinarith
    refine ⟨hfh, Nat.cast_nonneg F0, ?_⟩
    have hF0n : (F0 : ℚ) ≤ (n : ℚ) := by
      have : F0 ≤ n := by omega
      exact_mod_cast this
    rw [mul_div_assoc']
    rw [le_div_iff₀ (by norm_num)]
    nlinarith

/-- C5: for a fixed sample (frequency counts derived from a sample: natural
entries of length `n` with weighted sum `n`), whenever `estimateExpected`
returns values at two depths `m ≤ m'`, the value at `m'` is at least the
value at `m` — expected richness is non-decreasing in the depth, within the
interpolation regime and across the interpolation-extrapolation boundary. -/
theorem expected_richness_monotone (F : List ℕ) (n : ℕ) (s_obs : ℚ) (m m' : ℤ)
    (v v' : ℚ)
    (hlen : F.length = n)
    (hsum : ∑ i in Finset.range n, (i + 1) * F.getD i 0 = n)
    (hmm : m ≤ m')
    (h : estimateExpectedObservationCount m n (F.map (fun (a : ℕ) => (a : ℚ))) s_obs
      = .ok v)
    (h' : estimateExpectedObservationCount m' n (F.map (fun (a : ℕ) => (a : ℚ))) s_obs
      = .ok v') :
    v ≤ v' := by
  by_cases hm' : m' ≤ (n : ℤ)
  · have hm : m ≤ (n : ℤ) := le_trans hmm hm'
    unfold estimateExpectedObservationCount at h h'
    rw [if_pos hm] at h
    rw [if_pos hm'] at h'
    injection h with h
    injection h' with h'
    have hS : (∑ k in Finset.range n,
          calculate_alpha_km n (k + 1) m' * (F.map (fun (a : ℕ) => (a : ℚ))).getD k 0) ≤
        ∑ k in Finset.range n,
          calculate_alpha_km n (k + 1) m * (F.map (fun (a : ℕ) => (a : ℚ))).getD k 0 := by
      apply Finset.sum_le_sum
      intro k hk
      exact mul_le_mul_of_nonneg_right
        (calculate_alpha_km_antitone n (k + 1) m m'
          (by have := Finset.mem_range.mp hk; omega) hmm)
        (cast_getD_nonneg F k)
    rw [← h, ← h']
    linarith
  · push_neg at hm'
    unfold estimateExpectedObservationCount at h'
    rw [if_neg (by omega)] at h'
    cases hu : estimateUnobservedObservationCount (F.map (fun (a : ℕ) => (a : ℚ))) with
    | error e => simp only [hu] at h'; exact Except.noConfusion h'
    | ok f_hat =>
      simp only [hu] at h'
      split at h'
      · exact Except.noConfusion h'
      · next hnz =>
        injection h' with h'
        obtain ⟨hfh0, hf10, hf1le⟩ := unobserved_ok_bounds F n f_hat hlen hsum hu hnz
        have hd0 : (0 : ℚ) ≤ (n : ℚ) * f_hat :=
          mul_nonneg (Nat.cast_nonneg n) hfh0
        have hdpos : (0 : ℚ) < (n : ℚ) * f_hat := lt_of_le_of_ne hd0 (Ne.symm hnz)
        have hx0 : 0 ≤ (F.map (fun (a : ℕ) => (a : ℚ))).getD 0 0 / ((n : ℚ) * f_hat) :=
          div_nonneg hf10 hd0
        have hx1 : (F.map (fun (a : ℕ) => (a : ℚ))).getD 0 0 / ((n : ℚ) * f_hat) ≤ 1 :=
          (div_le_one hdpos).mpr hf1le
        have hbase0 : 0 ≤ 1 - (F.map (fun (a : ℕ) => (a : ℚ))).getD 0 0 / ((n : ℚ) * f_hat) := by
          linarith
        have hbase1 : 1 - (F.map (fun (a : ℕ) => (a : ℚ))).getD 0 0 / ((n : ℚ) * f_hat) ≤ 1 := by
          linarith
        by_cases hm : m ≤ (n : ℤ)
        · unfold estimateExpectedObservationCount at h
          rw [if_pos hm] at h
          injection h with h
          have hS0 : 0 ≤ ∑ k in Finset.range n,
              calculate_alpha_km n (k + 1) m * (F.map (fun (a : ℕ) => (a : ℚ))).getD k 0 :=
            Finset.sum_nonneg fun k _ =>
              mul_nonneg (calculate_alpha_km_nonneg n (k + 1) m) (cast_getD_nonneg F k)
          have hpow : (1 - (F.map (fun (a : ℕ) => (a : ℚ))).getD 0 0 / ((n : ℚ) * f_hat))
              ^ (m' - n).toNat ≤ 1 := pow_le_one₀ hbase0 hbase1
          rw [← h, ← h']
          nlinarith
        · push_neg at hm
          unfold estimateExpectedObservationCount at h
          rw [if_neg (by omega)] at h
          simp only [hu] at h
          rw [if_neg hnz] at h
          injection h with h
          have hexp : (m - n).toNat ≤ (m' - n).toNat := by omega
          have hpow : (1 - (F.map (fun (a : ℕ) => (a : ℚ))).getD 0 0 / ((n : ℚ) * f_hat))
                ^ (m' - n).toNat ≤
              (1 - (F.map (fun (a : ℕ) => (a : ℚ))).getD 0 0 / ((n : ℚ) * f_hat))
                ^ (m - n).toNat :=
            pow_le_pow_of_le_one hbase0 hbase1 hexp
          rw [← h, ← h']
          nlinarith

/-- Witness for C5: the spec's concrete sample `[1,1,2,3]` (`n = 7`,
`s_obs = 4`, `fk = [2,1,1,0,0,0,0]`) across the boundary `m = 7` to
`m' = 8`: `4 ≤ 30/7`. -/
theorem expected_richness_monotone_witness :
    estimateExpectedObservationCount 7 7 [2, 1, 1, 0, 0, 0, 0] 4 = .ok 4 ∧
    estimateExpectedObservationCount 8 7 [2, 1, 1, 0, 0, 0, 0] 4 = .ok (30/7) ∧
    (4 : ℚ) ≤ 30/7 := by
  have hmap : (([2, 1, 1, 0, 0, 0, 0] : List ℕ).map (fun (a : ℕ) => (a : ℚ)))
      = [2, 1, 1, 0, 0, 0, 0] := by norm_num
  have h7 : estimateExpectedObservationCount 7 7 [2, 1, 1, 0, 0, 0, 0] 4 = .ok 4 := by
    norm_num [estimateExpectedObservationCount, calculate_alpha_km, Finset.sum_range_succ]
  have h8 : estimateExpectedObservationCount 8 7 [2, 1, 1, 0, 0, 0, 0] 4 = .ok (30/7) := by
    norm_num [estimateExpectedObservationCount, estimateUnobservedObservationCount,
      List.get?, Int.toNat_one]
  refine ⟨h7, h8, ?_⟩
  exact expected_richness_monotone [2, 1, 1, 0, 0, 0, 0] 7 4 7 8 4 (30/7) (by decide)
    (by decide) (by norm_num) (by rw [hmap]; exact h7) (by rw [hmap]; exact h8)
